import Mathlib

/-!
Verification development for the MTX_phenotype repository.

This file gives a shallow embedding, in Lean 4, of the computational core of
the repository:

* src/src/processing.py — the streak engine:
  compute_streaks_of_detection and is_streak_longer_than_duration;
* src/src/diagnostics.py — the rule evaluators Diagnose4 and Diagnose9
  (run_detection) and the aggregation helper AbstractDiagnose.get_detected_ids.

Modelling conventions:

* a dataframe row of the boolean signal consumed by the streak engine is a
  Row: patient id (Nat), sample timestamp (ℚ, measured in hours — pandas
  timestamps are totally ordered and the code only ever subtracts them and
  divides by one hour, so a rational number of hours is an exact model of
  that arithmetic), and the boolean flag column;
* the pandas index is modelled explicitly: rows are enumerated with their
  original position, sorting carries the index along, and index-alignment
  (df["streak_id"] = series) is modelled as lookup by index;
* pandas sort_values is modelled by a deterministic comparison sort on the
  (patient, time) lexicographic order (tie order among equal keys is an
  arbitrary deterministic choice, as in the source);
* observation tables for the diagnostics are lists of Obs
  (patient id, timestamp, channel code, numeric value);
* a raised pandas KeyError is modelled as Except.error with a message naming
  the missing column.
-/

namespace MTXPhenotype

/-- Row of the boolean signal consumed by the streak engine: one dataframe row
with its patient-id column, its timestamp column (in hours) and its boolean
variable column (generally the detection column). -/
structure Row where
  pid : Nat
  time : ℚ
  flag : Bool
deriving DecidableEq, Repr

/-- Lexicographic (patient, time) order used by
df.sort_values([column_patient_id, column_date]) in processing.py line 17. -/
def rowLe (a b : Nat × Row) : Prop :=
  a.2.pid < b.2.pid ∨ (a.2.pid = b.2.pid ∧ a.2.time ≤ b.2.time)

instance : DecidableRel rowLe := fun a b => by unfold rowLe; infer_instance

instance : IsTotal (Nat × Row) rowLe := by
  constructor
  intro a b
  rcases lt_trichotomy a.2.pid b.2.pid with h | h | h
  · exact Or.inl (Or.inl h)
  · rcases le_total a.2.time b.2.time with ht | ht
    · exact Or.inl (Or.inr ⟨h, ht⟩)
    · exact Or.inr (Or.inr ⟨h.symm, ht⟩)
  · exact Or.inr (Or.inl h)

instance : IsTrans (Nat × Row) rowLe := by
  constructor
  intro a b c hab hbc
  rcases hab with h | ⟨e1, t1⟩
  · rcases hbc with h2 | ⟨e2, _⟩
    · exact Or.inl (h.trans h2)
    · exact Or.inl (e2 ▸ h)
  · rcases hbc with h2 | ⟨e2, t2⟩
    · exact Or.inl (e1 ▸ h2)
    · exact Or.inr ⟨e1.trans e2, t1.trans t2⟩

/-- Sorting of the signal by (patient, time), keeping the original pandas
index of every row (processing.py line 17). -/
def sortRows (rows : List Row) : List (Nat × Row) :=
  List.insertionSort rowLe rows.enum

/-- Embedding of the per-patient shift / flag-change / grouped-cumsum scan of
processing.py lines 18-20, applied to the (patient, time)-sorted signal.
The carried state is the (patient id, flag) of the previous row together with
the running cumulative sum within the current patient group; the first row of
a patient group compares its flag against a shifted NaN, which never equals a
boolean, so it always starts a new streak, and the grouped cumsum restarts
the counter of that patient at 1. -/
def assignIds : List (Nat × Row) → Option (Nat × Bool) → Nat → List (Nat × Row × Nat)
  | [], _, _ => []
  | (i, r) :: rest, none, _ =>
    (i, r, 1) :: assignIds rest (some (r.pid, r.flag)) 1
  | (i, r) :: rest, some (p, f), c =>
    if r.pid = p then
      let c1 := if r.flag = f then c else c + 1
      (i, r, c1) :: assignIds rest (some (r.pid, r.flag)) c1
    else
      (i, r, 1) :: assignIds rest (some (r.pid, r.flag)) 1

/-- Sorted signal with the streak id attached to every (index, row) pair:
the series df["streak_id"] of processing.py line 21, still in sorted order
with its original index labels. -/
def sortedWithIds (rows : List Row) : List (Nat × Row × Nat) :=
  assignIds (sortRows rows) none 0

/-- Index alignment: the streak id that the assignment
data["streak_id"] = compute_streaks_of_detection(...) (processing.py line 37)
attaches to the row whose original index is i. -/
def streakIdAt (rows : List Row) (i : Nat) : Nat :=
  match (sortedWithIds rows).find? fun e => decide (e.1 = i) with
  | some e => e.2.2
  | none => 0

/-- Embedding of compute_streaks_of_detection (processing.py lines 9-21),
including its column bookkeeping: line 18 writes the shifted column under the
hard-coded name "shifted_detection" while line 19 reads the column named
"shifted_" ++ column_variable; when the two names differ the read raises a
pandas KeyError, modelled as none.  On success the returned series is the
streak_id column of the sorted frame, carrying the original index labels
(assumes the frame has no pre-existing column named
"shifted_" ++ column_variable, as in every caller in the repository). -/
def compute_streaks_of_detection (column_variable : String) (rows : List Row) :
    Option (List (Nat × Nat)) :=
  if "shifted_" ++ column_variable = "shifted_detection" then
    some ((sortedWithIds rows).map fun e => (e.1, e.2.2))
  else
    none

/-- Signal in original row order with streak ids attached by index alignment:
the frame named data inside is_streak_longer_than_duration after line 37. -/
def dataWithIds (rows : List Row) : List (Nat × Row × Nat) :=
  rows.enum.map fun e => (e.1, e.2, streakIdAt rows e.1)

/-- Grouping key of a row: (patient id, streak id), the key of the
groupby([column_patient_id, "streak_id"]) of processing.py line 43. -/
def keyOf (e : Nat × Row × Nat) : Nat × Nat :=
  (e.2.1.pid, e.2.2)

/-- Rows of one (patient, streak) group, in original frame order. -/
def streakMembers (rows : List Row) (k : Nat × Nat) : List Row :=
  ((dataWithIds rows).filter fun e => decide (keyOf e = k)).map fun e => e.2.1

/-- Aggregation min_date of processing.py line 45. -/
def streakMinTime (rows : List Row) (k : Nat × Nat) : ℚ :=
  match streakMembers rows k with
  | [] => 0
  | m :: ms => ms.foldl (fun a r => min a r.time) m.time

/-- Aggregation max_date of processing.py line 46. -/
def streakMaxTime (rows : List Row) (k : Nat × Nat) : ℚ :=
  match streakMembers rows k with
  | [] => 0
  | m :: ms => ms.foldl (fun a r => max a r.time) m.time

/-- Aggregation is_streak_positive of processing.py line 47: the first flag of
the group in frame order. -/
def streakFirstFlag (rows : List Row) (k : Nat × Nat) : Bool :=
  match streakMembers rows k with
  | [] => false
  | m :: _ => m.flag

/-- Streak duration in hours, (max_date - min_date) / timedelta64(1, "h"),
processing.py lines 51-53. -/
def streakDuration (rows : List Row) (k : Nat × Nat) : ℚ :=
  streakMaxTime rows k - streakMinTime rows k

/-- The boolean computed for each streak group at processing.py lines 55-57:
streak_duration strictly greater than longer_than_n_hours AND the streak is a
positive one. -/
def streakQualifies (rows : List Row) (t : ℚ) (k : Nat × Nat) : Bool :=
  decide (t < streakDuration rows k) && streakFirstFlag rows k

/-- Distinct (patient, streak) keys of the grouped table
group_streaks_by_patient (processing.py lines 42-50). -/
def groupKeys (rows : List Row) : List (Nat × Nat) :=
  ((dataWithIds rows).map keyOf).dedup

/-- Grouped table group_streaks_by_patient restricted to its join key and its
recomputed column_variable column (the only columns line 68 reads back). -/
def groupTable (rows : List Row) (t : ℚ) : List ((Nat × Nat) × Bool) :=
  (groupKeys rows).map fun k => (k, streakQualifies rows t k)

/-- Pandas left merge of processing.py lines 60-66: every left row is paired
with each matching right row (sharing the (patient, streak_id) key), or with a
null when no right row matches; the left frame order is preserved. -/
def mergeLeft (data : List (Nat × Row × Nat)) (table : List ((Nat × Nat) × Bool)) :
    List (Nat × Row × Option Bool) :=
  data.flatMap fun e =>
    match table.filter fun g => decide (g.1 = keyOf e) with
    | [] => [(e.1, e.2.1, none)]
    | m :: ms => (m :: ms).map fun g => (e.1, e.2.1, some g.2)

/-- Embedding of is_streak_longer_than_duration (processing.py lines 24-68)
for the column name "detection" used by every caller in the repository.
The result carries the original index of every row (res is indexed by the
original index, line 65).  Line 68 computes column_variable_x &
column_variable_y; a null produced by an unmatched left row would be treated
as false by the pandas object-dtype & operator, modelled by Option.getD
false. -/
def is_streak_longer_than_duration (rows : List Row) (t : ℚ) : List (Nat × Bool) :=
  (mergeLeft (dataWithIds rows) (groupTable rows t)).map fun e =>
    (e.1, e.2.1.flag && e.2.2.getD false)

/-- Fixture of test_compute_streaks (src/tests/test_processing.py lines 10-33). -/
def streaksFixture : List Row :=
  [⟨0, 0, false⟩, ⟨0, 1, false⟩, ⟨0, 2, true⟩, ⟨0, 3, true⟩, ⟨0, 4, true⟩,
   ⟨1, 0, true⟩, ⟨1, 1, true⟩, ⟨1, 2, false⟩, ⟨1, 3, true⟩, ⟨1, 4, true⟩]

/-- Sanity check: the embedding reproduces the streak ids asserted by
test_compute_streaks. -/
theorem compute_streaks_fixture_check :
    compute_streaks_of_detection "detection" streaksFixture =
      some [(0, 1), (1, 1), (2, 2), (3, 2), (4, 2), (5, 1), (6, 1), (7, 2), (8, 3), (9, 3)] := by
  decide

/-- Fixture of test_is_streak_longer_than_duration
(src/tests/test_processing.py lines 36-64). -/
def durationFixture : List Row :=
  [⟨0, 0, true⟩, ⟨0, 1, true⟩, ⟨0, 2, true⟩, ⟨0, 3, true⟩, ⟨0, 4, false⟩,
   ⟨1, 0, true⟩, ⟨1, 4, true⟩, ⟨1, 8, false⟩, ⟨1, 9, true⟩, ⟨1, 13, true⟩]

/-- Sanity check: the embedding reproduces the detections asserted by
test_is_streak_longer_than_duration with threshold 2. -/
theorem is_streak_fixture_check :
    is_streak_longer_than_duration durationFixture 2 =
      [(0, true), (1, true), (2, true), (3, true), (4, false),
       (5, true), (6, true), (7, false), (8, true), (9, true)] := by
  with_unfolding_all decide

/-! Structural lemmas about the streak scan. -/

/-- The scan only decorates rows with ids: projecting the ids away returns the
input list. -/
theorem assignIds_proj (l : List (Nat × Row)) (prev : Option (Nat × Bool)) (c : Nat) :
    (assignIds l prev c).map (fun e => (e.1, e.2.1)) = l := by
  induction l generalizing prev c with
  | nil => cases prev with
    | none => rfl
    | some pf => obtain ⟨p, f⟩ := pf; rfl
  | cons hd tl ih =>
    obtain ⟨i, r⟩ := hd
    cases prev with
    | none => simp [assignIds, ih]
    | some pf =>
      obtain ⟨p, f⟩ := pf
      by_cases hpid : r.pid = p
      · by_cases hflag : r.flag = f <;> simp [assignIds, hpid, hflag, ih]
      · simp [assignIds, hpid, ih]

/-- Every entry of the scan comes from an input row. -/
theorem assignIds_mem {l : List (Nat × Row)} {prev : Option (Nat × Bool)} {c : Nat}
    {e : Nat × Row × Nat} (he : e ∈ assignIds l prev c) : (e.1, e.2.1) ∈ l := by
  have := List.mem_map_of_mem (fun e : Nat × Row × Nat => (e.1, e.2.1)) he
  rwa [assignIds_proj] at this

/-- The sorted, id-decorated signal projects to a permutation of the
enumerated input signal. -/
theorem sortedWithIds_proj_perm (rows : List Row) :
    ((sortedWithIds rows).map fun e => (e.1, e.2.1)).Perm rows.enum := by
  rw [sortedWithIds, assignIds_proj]
  exact List.perm_insertionSort rowLe rows.enum

/-- Original indices in the sorted, id-decorated signal are pairwise
distinct. -/
theorem sortedWithIds_idx_nodup (rows : List Row) :
    ((sortedWithIds rows).map fun e => e.1).Nodup := by
  have h1 : ((sortedWithIds rows).map fun e => e.1) =
      (((sortedWithIds rows).map fun e => (e.1, e.2.1)).map Prod.fst) := by
    rw [List.map_map]; rfl
  rw [h1]
  have h2 := (sortedWithIds_proj_perm rows).map Prod.fst
  rw [List.enum_map_fst] at h2
  exact h2.nodup_iff.mpr (List.nodup_range rows.length)

/-- Looking up the original index of a row in the sorted decorated signal finds
that row, decorated with some streak id. -/
theorem find_at_index {rows : List Row} {i : Nat} {r : Row} (h : rows[i]? = some r) :
    ∃ s : Nat, (sortedWithIds rows).find? (fun e => decide (e.1 = i)) = some (i, r, s) := by
  have henum : (i, r) ∈ rows.enum := List.mk_mem_enum_iff_getElem?.mpr h
  have hmem : (i, r) ∈ (sortedWithIds rows).map fun e => (e.1, e.2.1) :=
    (sortedWithIds_proj_perm rows).mem_iff.mpr henum
  obtain ⟨e0, he0, hproj⟩ := List.mem_map.mp hmem
  have he0i : e0.1 = i := congrArg Prod.fst hproj
  have hsome : ((sortedWithIds rows).find? fun e => decide (e.1 = i)).isSome :=
    List.find?_isSome.mpr ⟨e0, he0, by simp [he0i]⟩
  obtain ⟨e1, hfind⟩ := Option.isSome_iff_exists.mp hsome
  have he1 : e1 ∈ sortedWithIds rows := List.mem_of_find?_eq_some hfind
  have he1i : e1.1 = i := by
    have := List.find?_some hfind
    simpa using this
  have hee : e0 = e1 :=
    List.inj_on_of_nodup_map (sortedWithIds_idx_nodup rows) he0 he1 (by rw [he0i, he1i])
  refine ⟨e0.2.2, ?_⟩
  rw [hfind, ← hee]
  have : e0 = (i, r, e0.2.2) := by
    obtain ⟨a, bc⟩ := e0
    obtain ⟨b, c⟩ := bc
    simp only [Prod.mk.injEq] at hproj
    simp [hproj.1, hproj.2]
  rw [← this]

/-- The decorated entry of a row, rebuilt from its index-aligned streak id,
is an entry of the sorted decorated signal. -/
theorem streakIdAt_mem_sorted {rows : List Row} {i : Nat} {r : Row} (h : rows[i]? = some r) :
    (i, r, streakIdAt rows i) ∈ sortedWithIds rows := by
  obtain ⟨s, hfind⟩ := find_at_index h
  have : streakIdAt rows i = s := by rw [streakIdAt, hfind]
  rw [this]
  exact List.mem_of_find?_eq_some hfind

/-- Every index-aligned entry of the original-order frame is an entry of the
sorted decorated signal. -/
theorem dataWithIds_subset_sorted {rows : List Row} {e : Nat × Row × Nat}
    (he : e ∈ dataWithIds rows) : e ∈ sortedWithIds rows := by
  rw [dataWithIds] at he
  obtain ⟨⟨j, rj⟩, hmem, rfl⟩ := List.mem_map.mp he
  exact streakIdAt_mem_sorted (List.mk_mem_enum_iff_getElem?.mp hmem)

/-- Invariant of the scan under a (patient, flag) carry: on a pid-sorted tail
whose pids are at least the carried pid, ids of the carried patient never drop
below the carried counter, an id equal to the carried counter can only decorate
the carried flag, and any two entries that share (patient, id) share their
flag. -/
theorem assignIds_inv (l : List (Nat × Row)) (p : Nat) (f : Bool) (c : Nat)
    (hs : l.Pairwise fun a b => a.2.pid ≤ b.2.pid)
    (hp : ∀ a ∈ l, p ≤ a.2.pid) :
    (∀ e ∈ assignIds l (some (p, f)) c, e.2.1.pid = p →
        c ≤ e.2.2 ∧ (e.2.2 = c → e.2.1.flag = f)) ∧
    (∀ e ∈ assignIds l (some (p, f)) c, ∀ e2 ∈ assignIds l (some (p, f)) c,
        e.2.1.pid = e2.2.1.pid → e.2.2 = e2.2.2 → e.2.1.flag = e2.2.1.flag) := by
  induction l generalizing p f c with
  | nil => simp [assignIds]
  | cons hd tl ih =>
    obtain ⟨i, r⟩ := hd
    rw [List.pairwise_cons] at hs
    obtain ⟨hhd, htl⟩ := hs
    have hptl : ∀ a ∈ tl, p ≤ a.2.pid := fun a ha => hp a (List.mem_cons_of_mem _ ha)
    by_cases hpid : r.pid = p
    · by_cases hflag : r.flag = f
      · have hout : assignIds ((i, r) :: tl) (some (p, f)) c =
            (i, r, c) :: assignIds tl (some (p, f)) c := by
          simp [assignIds, hpid, hflag]
        obtain ⟨ih1, ih2⟩ := ih p f c htl hptl
        rw [hout]
        constructor
        · intro e he hep
          rcases List.mem_cons.mp he with rfl | heTl
          · exact ⟨le_refl c, fun _ => hflag⟩
          · exact ih1 e heTl hep
        · intro e he e2 he2 hp12 hs12
          rcases List.mem_cons.mp he with rfl | heTl
          · rcases List.mem_cons.mp he2 with rfl | he2Tl
            · rfl
            · have h1 : e2.2.1.pid = p := by
                simp only at hp12; rw [← hp12, hpid]
              have h2 := (ih1 e2 he2Tl h1).2 (by simp only at hs12; exact hs12.symm)
              simp only [hflag, h2]
          · rcases List.mem_cons.mp he2 with rfl | he2Tl
            · have h1 : e.2.1.pid = p := by
                simp only at hp12; rw [hp12, hpid]
              have h2 := (ih1 e heTl h1).2 (by simp only at hs12; exact hs12)
              simp only [hflag, h2]
            · exact ih2 e heTl e2 he2Tl hp12 hs12
      · have hout : assignIds ((i, r) :: tl) (some (p, f)) c =
            (i, r, c + 1) :: assignIds tl (some (p, r.flag)) (c + 1) := by
          simp [assignIds, hpid, hflag]
        obtain ⟨ih1, ih2⟩ := ih p r.flag (c + 1) htl hptl
        rw [hout]
        constructor
        · intro e he hep
          rcases List.mem_cons.mp he with rfl | heTl
          · exact ⟨Nat.le_succ c, fun hcc => absurd hcc (Nat.succ_ne_self c)⟩
          · obtain ⟨hle, _⟩ := ih1 e heTl hep
            refine ⟨le_trans (Nat.le_succ c) hle, fun hec => ?_⟩
            rw [hec] at hle
            exact absurd hle (Nat.not_succ_le_self c)
        · intro e he e2 he2 hp12 hs12
          rcases List.mem_cons.mp he with rfl | heTl
          · rcases List.mem_cons.mp he2 with rfl | he2Tl
            · rfl
            · have h1 : e2.2.1.pid = p := by
                simp only at hp12; rw [← hp12, hpid]
              have h2 := (ih1 e2 he2Tl h1).2 (by simp only at hs12; exact hs12.symm)
              simp only [h2]
          · rcases List.mem_cons.mp he2 with rfl | he2Tl
            · have h1 : e.2.1.pid = p := by
                simp only at hp12; rw [hp12, hpid]
              have h2 := (ih1 e heTl h1).2 (by simp only at hs12; exact hs12)
              simp only [h2]
            · exact ih2 e heTl e2 he2Tl hp12 hs12
    · have hout : assignIds ((i, r) :: tl) (some (p, f)) c =
          (i, r, 1) :: assignIds tl (some (r.pid, r.flag)) 1 := by
        simp [assignIds, hpid]
      have hlt : p < r.pid := lt_of_le_of_ne (hp (i, r) (List.mem_cons_self _ _)) (Ne.symm hpid)
      obtain ⟨ih1, ih2⟩ := ih r.pid r.flag 1 htl hhd
      rw [hout]
      constructor
      · intro e he hep
        rcases List.mem_cons.mp he with rfl | heTl
        · exact absurd hep hpid
        · exfalso
          have hmem := assignIds_mem heTl
          have := hhd (e.1, e.2.1) hmem
          rw [hep] at this
          exact absurd this (not_le_of_lt hlt)
      · intro e he e2 he2 hp12 hs12
        rcases List.mem_cons.mp he with rfl | heTl
        · rcases List.mem_cons.mp he2 with rfl | he2Tl
          · rfl
          · have h1 : e2.2.1.pid = r.pid := by simp only at hp12; rw [← hp12]
            have h2 := (ih1 e2 he2Tl h1).2 (by simp only at hs12; exact hs12.symm)
            simp only [h2]
        · rcases List.mem_cons.mp he2 with rfl | he2Tl
          · have h1 : e.2.1.pid = r.pid := by simp only at hp12; rw [hp12]
            have h2 := (ih1 e heTl h1).2 (by simp only at hs12; exact hs12)
            simp only [h2]
          · exact ih2 e heTl e2 he2Tl hp12 hs12

/-- Sorted signal, pid-monotone projection. -/
theorem sortRows_pid_pairwise (rows : List Row) :
    (sortRows rows).Pairwise fun a b => a.2.pid ≤ b.2.pid := by
  have h := List.sorted_insertionSort rowLe rows.enum
  exact h.imp fun hab => by
    rcases hab with h1 | ⟨h1, _⟩
    · exact le_of_lt h1
    · exact le_of_eq h1

/-- Two entries of the sorted decorated signal that share their patient id and
their streak id share their flag: a streak has a constant flag. -/
theorem sortedWithIds_flag_eq {rows : List Row} {e e2 : Nat × Row × Nat}
    (he : e ∈ sortedWithIds rows) (he2 : e2 ∈ sortedWithIds rows)
    (hpid : e.2.1.pid = e2.2.1.pid) (hsid : e.2.2 = e2.2.2) :
    e.2.1.flag = e2.2.1.flag := by
  have hsorted := sortRows_pid_pairwise rows
  rw [sortedWithIds] at he he2
  rcases hrw : sortRows rows with _ | ⟨⟨i, r⟩, tl⟩
  · rw [hrw] at he
    simp [assignIds] at he
  · rw [hrw] at he he2 hsorted
    rw [List.pairwise_cons] at hsorted
    obtain ⟨hhd, htl⟩ := hsorted
    have hout : assignIds ((i, r) :: tl) none 0 =
        (i, r, 1) :: assignIds tl (some (r.pid, r.flag)) 1 := by
      simp [assignIds]
    rw [hout] at he he2
    obtain ⟨ih1, _⟩ := assignIds_inv tl r.pid r.flag 1 htl hhd
    have ih2 := (assignIds_inv tl r.pid r.flag 1 htl hhd).2
    rcases List.mem_cons.mp he with rfl | heTl
    · rcases List.mem_cons.mp he2 with rfl | he2Tl
      · rfl
      · have h1 : e2.2.1.pid = r.pid := by simp only at hpid; rw [← hpid]
        have h2 := (ih1 e2 he2Tl h1).2 (by simp only at hsid; exact hsid.symm)
        simp only [h2]
    · rcases List.mem_cons.mp he2 with rfl | he2Tl
      · have h1 : e.2.1.pid = r.pid := by simp only at hpid; rw [hpid]
        have h2 := (ih1 e heTl h1).2 (by simp only at hsid; exact hsid)
        simp only [h2]
      · exact ih2 e heTl e2 he2Tl hpid hsid

/-- The is_streak_positive aggregate of the own (patient, streak) group of a
row equals the flag of the row itself: all group members share one flag, and the group
contains the row itself. -/
theorem streakFirstFlag_eq {rows : List Row} {i : Nat} {r : Row}
    (h : rows[i]? = some r) :
    streakFirstFlag rows (r.pid, streakIdAt rows i) = r.flag := by
  have henum : (i, r) ∈ rows.enum := List.mk_mem_enum_iff_getElem?.mpr h
  have hdata : (i, r, streakIdAt rows i) ∈ dataWithIds rows := by
    rw [dataWithIds]
    exact List.mem_map_of_mem _ henum
  have hkey : keyOf (i, r, streakIdAt rows i) = (r.pid, streakIdAt rows i) := rfl
  have hfil : (i, r, streakIdAt rows i) ∈
      (dataWithIds rows).filter fun e => decide (keyOf e = (r.pid, streakIdAt rows i)) :=
    List.mem_filter.mpr ⟨hdata, by simp [hkey]⟩
  have hrmem : r ∈ streakMembers rows (r.pid, streakIdAt rows i) :=
    List.mem_map_of_mem (fun e : Nat × Row × Nat => e.2.1) hfil
  rw [streakFirstFlag]
  rcases hm : streakMembers rows (r.pid, streakIdAt rows i) with _ | ⟨m, ms⟩
  · rw [hm] at hrmem
    cases hrmem
  · have hmmem : m ∈ streakMembers rows (r.pid, streakIdAt rows i) := by
      rw [hm]
      exact List.mem_cons_self _ _
    rw [streakMembers] at hmmem
    obtain ⟨e2, he2fil, he2m⟩ := List.mem_map.mp hmmem
    have he2data : e2 ∈ dataWithIds rows := (List.mem_filter.mp he2fil).1
    have he2key : keyOf e2 = (r.pid, streakIdAt rows i) := by
      have := (List.mem_filter.mp he2fil).2
      simpa using this
    have hs1 : (i, r, streakIdAt rows i) ∈ sortedWithIds rows := streakIdAt_mem_sorted h
    have hs2 : e2 ∈ sortedWithIds rows := dataWithIds_subset_sorted he2data
    have hpe : (i, r, streakIdAt rows i).2.1.pid = e2.2.1.pid := by
      have := congrArg Prod.fst he2key
      simpa [keyOf] using this.symm
    have hse : (i, r, streakIdAt rows i).2.2 = e2.2.2 := by
      have := congrArg Prod.snd he2key
      simpa [keyOf] using this.symm
    have hflag := sortedWithIds_flag_eq hs1 hs2 hpe hse
    rw [← he2m]
    exact hflag.symm

/-- Filtering a key-value table built over pairwise-distinct keys by one of
its keys yields exactly the entry of that key. -/
theorem filter_table_eq {β : Type} (keys : List (Nat × Nat)) (f : Nat × Nat → β) (k : Nat × Nat)
    (hnd : keys.Nodup) (hk : k ∈ keys) :
    (keys.map fun k2 => (k2, f k2)).filter (fun g => decide (g.1 = k)) = [(k, f k)] := by
  induction keys with
  | nil => cases hk
  | cons a as ih =>
    rw [List.nodup_cons] at hnd
    obtain ⟨ha, hnd2⟩ := hnd
    by_cases hak : a = k
    · subst hak
      have hrest : (as.map fun k2 => (k2, f k2)).filter (fun g => decide (g.1 = a)) = [] := by
        rw [List.filter_eq_nil_iff]
        intro g hg
        obtain ⟨k2, hk2, rfl⟩ := List.mem_map.mp hg
        simp only [decide_eq_true_eq]
        intro hk2a
        exact ha (hk2a ▸ hk2)
      simp [List.filter_cons, hrest]
    · have hkas : k ∈ as := by
        rcases List.mem_cons.mp hk with rfl | hmem
        · exact absurd rfl hak
        · exact hmem
      simp [List.filter_cons, hak, ih hnd2 hkas]

/-- When every left key is covered by exactly one table entry, the pandas left
merge decorates each left row, in order, with its table value. -/
theorem mergeLeft_of_covered (data : List (Nat × Row × Nat)) (table : List ((Nat × Nat) × Bool))
    (q : Nat × Nat → Bool)
    (h : ∀ e ∈ data, table.filter (fun g => decide (g.1 = keyOf e)) = [(keyOf e, q (keyOf e))]) :
    mergeLeft data table = data.map fun e => (e.1, e.2.1, some (q (keyOf e))) := by
  induction data with
  | nil => rfl
  | cons e es ih =>
    rw [mergeLeft, List.flatMap_cons, h e (List.mem_cons_self _ _)]
    have hrest : es.flatMap (fun e2 =>
        match table.filter fun g => decide (g.1 = keyOf e2) with
        | [] => [(e2.1, e2.2.1, none)]
        | m :: ms => (m :: ms).map fun g => (e2.1, e2.2.1, some g.2)) = mergeLeft es table := rfl
    rw [hrest, ih fun e2 he2 => h e2 (List.mem_cons_of_mem _ he2)]
    rfl

/-- The left join of is_streak_longer_than_duration matches every row with
exactly one group, so the merged frame is the original-order frame decorated
with the recomputed boolean of its group. -/
theorem is_streak_eq_pointwise (rows : List Row) (t : ℚ) :
    is_streak_longer_than_duration rows t =
      rows.enum.map fun e =>
        (e.1, e.2.flag && streakQualifies rows t (e.2.pid, streakIdAt rows e.1)) := by
  rw [is_streak_longer_than_duration]
  rw [mergeLeft_of_covered (dataWithIds rows) (groupTable rows t) (streakQualifies rows t)
    (fun e he => filter_table_eq (groupKeys rows) (streakQualifies rows t) (keyOf e)
      (List.nodup_dedup _) (List.mem_dedup.mpr (List.mem_map_of_mem keyOf he)))]
  rw [List.map_map, dataWithIds, List.map_map]
  rfl

/-- C9.  For every input signal — also signals not sorted by patient and
time — and every threshold, is_streak_longer_than_duration returns one value
per input row, carrying the original row indices 0, 1, ..., n-1 in their
original order, so the result can be merged back onto the calling frame both
positionally and by row key. -/
theorem is_streak_preserves_row_identity (rows : List Row) (t : ℚ) :
    (is_streak_longer_than_duration rows t).map Prod.fst = List.range rows.length ∧
    (is_streak_longer_than_duration rows t).length = rows.length := by
  rw [is_streak_eq_pointwise]
  constructor
  · rw [List.map_map]
    have hcomp : (Prod.fst ∘ fun e : Nat × Row =>
        (e.1, e.2.flag && streakQualifies rows t (e.2.pid, streakIdAt rows e.1))) =
        fun e : Nat × Row => e.1 := rfl
    rw [hcomp]
    have hfst := List.enum_map_fst rows
    rw [show (Prod.fst : Nat × Row → Nat) = fun e : Nat × Row => e.1 from rfl] at hfst
    exact hfst
  · simp

/-- C1.  For every signal, threshold and row: the output of
is_streak_longer_than_duration at that row is true iff the streak of the row has
duration strictly greater than the threshold AND its streak-level
is_streak_positive flag is true; in particular every row of a negative-flag
streak yields false whatever its duration, and a streak whose duration equals
the threshold exactly never qualifies (strict inequality). -/
theorem is_streak_longer_iff (rows : List Row) (t : ℚ) (i : Nat) (r : Row)
    (h : rows[i]? = some r) :
    (is_streak_longer_than_duration rows t)[i]? =
      some (i, decide (t < streakDuration rows (r.pid, streakIdAt rows i)) &&
        streakFirstFlag rows (r.pid, streakIdAt rows i)) := by
  rw [is_streak_eq_pointwise, List.getElem?_map]
  have henum : rows.enum[i]? = some (i, r) := by
    rw [List.getElem?_enum, h]
    rfl
  rw [henum]
  have hf := streakFirstFlag_eq h
  simp only [Option.map_some', streakQualifies]
  rw [hf]
  have hb : (r.flag && (decide (t < streakDuration rows (r.pid, streakIdAt rows i)) && r.flag)) =
      (decide (t < streakDuration rows (r.pid, streakIdAt rows i)) && r.flag) := by
    cases r.flag
    · simp
    · simp
  rw [hb]

/-- Witness for C1 at row 5 of the duration fixture of the repository. -/
theorem is_streak_longer_iff_witness :
    (is_streak_longer_than_duration durationFixture 2)[5]? =
      some (5, decide ((2 : ℚ) < streakDuration durationFixture (1, streakIdAt durationFixture 5)) &&
        streakFirstFlag durationFixture (1, streakIdAt durationFixture 5)) :=
  is_streak_longer_iff durationFixture 2 5 ⟨1, 0, true⟩ (by decide)

/-- Relation between two consecutive rows of the sorted decorated signal:
within one patient the streak id is kept when the flag repeats and incremented
by one when it changes; at a patient boundary the id restarts at 1. -/
def streakStep (a b : Nat × Row × Nat) : Prop :=
  if b.2.1.pid = a.2.1.pid then
    b.2.2 = (if b.2.1.flag = a.2.1.flag then a.2.2 else a.2.2 + 1)
  else b.2.2 = 1

/-- The scan emits a streakStep-chain out of its carried last entry. -/
theorem assignIds_chain (l : List (Nat × Row)) (e : Nat × Row × Nat) :
    List.Chain streakStep e (assignIds l (some (e.2.1.pid, e.2.1.flag)) e.2.2) := by
  induction l generalizing e with
  | nil => exact List.Chain.nil
  | cons hd tl ih =>
    obtain ⟨i, r⟩ := hd
    by_cases hpid : r.pid = e.2.1.pid
    · by_cases hflag : r.flag = e.2.1.flag
      · have hout : assignIds ((i, r) :: tl) (some (e.2.1.pid, e.2.1.flag)) e.2.2 =
            (i, r, e.2.2) :: assignIds tl (some (r.pid, r.flag)) e.2.2 := by
          simp [assignIds, hpid, hflag]
        rw [hout]
        refine List.Chain.cons ?_ ?_
        · rw [streakStep]
          simp [hpid, hflag]
        · have h2 := ih (i, r, e.2.2)
          rw [show ((i, r, e.2.2) : Nat × Row × Nat).2.1.pid = r.pid from rfl,
            show ((i, r, e.2.2) : Nat × Row × Nat).2.1.flag = r.flag from rfl] at h2
          exact h2
      · have hout : assignIds ((i, r) :: tl) (some (e.2.1.pid, e.2.1.flag)) e.2.2 =
            (i, r, e.2.2 + 1) :: assignIds tl (some (r.pid, r.flag)) (e.2.2 + 1) := by
          simp [assignIds, hpid, hflag]
        rw [hout]
        refine List.Chain.cons ?_ ?_
        · rw [streakStep]
          simp [hpid, hflag]
        · have h2 := ih (i, r, e.2.2 + 1)
          exact h2
    · have hout : assignIds ((i, r) :: tl) (some (e.2.1.pid, e.2.1.flag)) e.2.2 =
          (i, r, 1) :: assignIds tl (some (r.pid, r.flag)) 1 := by
        simp [assignIds, hpid]
      rw [hout]
      refine List.Chain.cons ?_ ?_
      · rw [streakStep]
        simp [hpid]
      · have h2 := ih (i, r, 1)
        exact h2

/-- The sorted decorated signal is a streakStep-chain. -/
theorem sortedWithIds_chain (rows : List Row) :
    List.Chain' streakStep (sortedWithIds rows) := by
  rw [sortedWithIds]
  rcases sortRows rows with _ | ⟨⟨i, r⟩, tl⟩
  · exact trivial
  · have hout : assignIds ((i, r) :: tl) none 0 =
        (i, r, 1) :: assignIds tl (some (r.pid, r.flag)) 1 := by
      simp [assignIds]
    rw [hout]
    exact assignIds_chain tl (i, r, 1)

/-- The head of the sorted decorated signal gets streak id 1. -/
theorem sortedWithIds_head_one (rows : List Row) :
    ∀ e, (sortedWithIds rows).head? = some e → e.2.2 = 1 := by
  rw [sortedWithIds]
  rcases sortRows rows with _ | ⟨⟨i, r⟩, tl⟩
  · intro e he
    cases he
  · have hout : assignIds ((i, r) :: tl) none 0 =
        (i, r, 1) :: assignIds tl (some (r.pid, r.flag)) 1 := by
      simp [assignIds]
    rw [hout]
    intro e he
    injection he with he
    rw [← he]

/-- If some patient occurs in the scan output and the carried patient is a
different one, then the scan gives streak id 1 to some row of that patient. -/
theorem assignIds_first_one (l : List (Nat × Row)) (prev : Option (Nat × Bool)) (c : Nat)
    (p : Nat) (hprev : ∀ pf : Nat × Bool, prev = some pf → pf.1 ≠ p)
    (hex : ∃ e ∈ assignIds l prev c, e.2.1.pid = p) :
    ∃ e ∈ assignIds l prev c, e.2.1.pid = p ∧ e.2.2 = 1 := by
  induction l generalizing prev c with
  | nil =>
    obtain ⟨e, he, _⟩ := hex
    rw [show assignIds [] prev c = [] from by cases prev with
      | none => rfl
      | some pf => obtain ⟨q, g⟩ := pf; rfl] at he
    cases he
  | cons hd tl ih =>
    obtain ⟨i, r⟩ := hd
    cases prev with
    | none =>
      have hout : assignIds ((i, r) :: tl) none c =
          (i, r, 1) :: assignIds tl (some (r.pid, r.flag)) 1 := by
        simp [assignIds]
      rw [hout] at hex ⊢
      by_cases hrp : r.pid = p
      · exact ⟨(i, r, 1), List.mem_cons_self _ _, hrp, rfl⟩
      · obtain ⟨e, he, hep⟩ := hex
        rcases List.mem_cons.mp he with rfl | heTl
        · exact absurd hep hrp
        · obtain ⟨e2, he2, h1, h2⟩ := ih (some (r.pid, r.flag)) 1
            (by
              intro pf hpf
              injection hpf with hpf2
              rw [← hpf2]
              exact hrp)
            ⟨e, heTl, hep⟩
          exact ⟨e2, List.mem_cons_of_mem _ he2, h1, h2⟩
    | some pf =>
      obtain ⟨q, g⟩ := pf
      have hqp : q ≠ p := hprev (q, g) rfl
      by_cases hrq : r.pid = q
      · by_cases hfg : r.flag = g
        · have hout : assignIds ((i, r) :: tl) (some (q, g)) c =
              (i, r, c) :: assignIds tl (some (r.pid, r.flag)) c := by
            simp [assignIds, hrq, hfg]
          rw [hout] at hex ⊢
          obtain ⟨e, he, hep⟩ := hex
          rcases List.mem_cons.mp he with rfl | heTl
          · exact absurd (show q = p from hrq ▸ hep) hqp
          · obtain ⟨e2, he2, h1, h2⟩ := ih (some (r.pid, r.flag)) c
              (by
                intro pf2 hpf2
                injection hpf2 with hpf3
                rw [← hpf3, hrq]
                exact hqp)
              ⟨e, heTl, hep⟩
            exact ⟨e2, List.mem_cons_of_mem _ he2, h1, h2⟩
        · have hout : assignIds ((i, r) :: tl) (some (q, g)) c =
              (i, r, c + 1) :: assignIds tl (some (r.pid, r.flag)) (c + 1) := by
            simp [assignIds, hrq, hfg]
          rw [hout] at hex ⊢
          obtain ⟨e, he, hep⟩ := hex
          rcases List.mem_cons.mp he with rfl | heTl
          · exact absurd (show q = p from hrq ▸ hep) hqp
          · obtain ⟨e2, he2, h1, h2⟩ := ih (some (r.pid, r.flag)) (c + 1)
              (by
                intro pf2 hpf2
                injection hpf2 with hpf3
                rw [← hpf3, hrq]
                exact hqp)
              ⟨e, heTl, hep⟩
            exact ⟨e2, List.mem_cons_of_mem _ he2, h1, h2⟩
      · have hout : assignIds ((i, r) :: tl) (some (q, g)) c =
            (i, r, 1) :: assignIds tl (some (r.pid, r.flag)) 1 := by
          simp [assignIds, hrq]
        rw [hout] at hex ⊢
        by_cases hrp : r.pid = p
        · exact ⟨(i, r, 1), List.mem_cons_self _ _, hrp, rfl⟩
        · obtain ⟨e, he, hep⟩ := hex
          rcases List.mem_cons.mp he with rfl | heTl
          · exact absurd hep hrp
          · obtain ⟨e2, he2, h1, h2⟩ := ih (some (r.pid, r.flag)) 1
              (by
                intro pf2 hpf2
                injection hpf2 with hpf3
                rw [← hpf3]
                exact hrp)
              ⟨e, heTl, hep⟩
            exact ⟨e2, List.mem_cons_of_mem _ he2, h1, h2⟩

/-- C2.  compute_streaks_of_detection (with the column name
"detection" passed by every caller) returns the streak ids computed by sorting the rows of each patient
by time: the sorted decorated signal is a permutation of the enumerated input
rows, it is sorted by (patient, time), consecutive sorted rows obey the
streakStep law — a new streak starts exactly when the flag differs from the
flag of the previous row within the same patient, and at every patient boundary —
the very first sorted row gets id 1, and every patient present in the signal
has a row with streak id 1 (ids restart at 1 per patient, hence are never
globally unique across patients). -/
theorem compute_streaks_spec (rows : List Row) :
    compute_streaks_of_detection "detection" rows =
      some ((sortedWithIds rows).map fun e => (e.1, e.2.2)) ∧
    ((sortedWithIds rows).map fun e => (e.1, e.2.1)).Perm rows.enum ∧
    (sortedWithIds rows).Pairwise (fun a b =>
      a.2.1.pid < b.2.1.pid ∨ (a.2.1.pid = b.2.1.pid ∧ a.2.1.time ≤ b.2.1.time)) ∧
    List.Chain' streakStep (sortedWithIds rows) ∧
    (∀ e, (sortedWithIds rows).head? = some e → e.2.2 = 1) ∧
    (∀ p, (∃ e ∈ sortedWithIds rows, e.2.1.pid = p) →
      ∃ e ∈ sortedWithIds rows, e.2.1.pid = p ∧ e.2.2 = 1) := by
  refine ⟨rfl, sortedWithIds_proj_perm rows, ?_, sortedWithIds_chain rows,
    sortedWithIds_head_one rows, ?_⟩
  · have hs : (sortRows rows).Pairwise rowLe := List.sorted_insertionSort rowLe rows.enum
    have hmap : ((sortedWithIds rows).map fun e => (e.1, e.2.1)).Pairwise rowLe := by
      rw [sortedWithIds, assignIds_proj]
      exact hs
    rw [List.pairwise_map] at hmap
    exact hmap.imp fun hab => hab
  · intro p hex
    exact assignIds_first_one (sortRows rows) none 0 p (by intro pf hpf; cases hpf) hex

/-- Witness for C2 on the fixture of test_compute_streaks: patient 1 is
present, so some row of patient 1 carries streak id 1. -/
theorem compute_streaks_spec_witness :
    ∃ e ∈ sortedWithIds streaksFixture, e.2.1.pid = 1 ∧ e.2.2 = 1 :=
  (compute_streaks_spec streaksFixture).2.2.2.2.2 1 (by decide)

/-- C3.  The column-name slip of compute_streaks_of_detection: line 18 of
processing.py stores the shifted column under the hard-coded name
"shifted_detection" while line 19 reads "shifted_" ++ column_variable, so
the function succeeds for the column name "detection" but raises a pandas
KeyError for every other column_variable, even on a well-timed one-row
signal — contradicting the generic column_variable parameter and docstring. -/
theorem compute_streaks_column_name_bug :
    compute_streaks_of_detection "detection" [⟨0, 0, true⟩] = some [(0, 1)] ∧
    compute_streaks_of_detection "flag" [⟨0, 0, true⟩] = none := by
  constructor
  · decide
  · decide

/-- Patient signal [T, T, F, T, T] at hours [0, 1, 2, 3, 4]: the fixture
described in §8 of the specification. -/
def specHoursFixture : List Row :=
  [⟨1, 0, true⟩, ⟨1, 1, true⟩, ⟨1, 2, false⟩, ⟨1, 3, true⟩, ⟨1, 4, true⟩]

/-- Patient signal [T, T, F, T, T] at hours [0, 4, 8, 9, 13]: the fixture
actually used by test_is_streak_longer_than_duration for patient 1. -/
def testHoursFixture : List Row :=
  [⟨1, 0, true⟩, ⟨1, 4, true⟩, ⟨1, 8, false⟩, ⟨1, 9, true⟩, ⟨1, 13, true⟩]

/-- C4 counterexample.  On the hours [0, 1, 2, 3, 4] of the claim, with
threshold 2, is_streak_longer_than_duration yields all-false (each positive
streak spans only 1 hour, and 1 > 2 fails), not the claimed [T, T, F, T, T]. -/
theorem fixture_hours_counterexample :
    (is_streak_longer_than_duration specHoursFixture 2).map Prod.snd =
      [false, false, false, false, false] ∧
    (is_streak_longer_than_duration specHoursFixture 2).map Prod.snd ≠
      [true, true, false, true, true] := by
  with_unfolding_all decide

/-- C4 amended.  The streak split [1, 1, 2, 3, 3] of the claim is correct at
hours [0, 1, 2, 3, 4], but with threshold 2 the detection sequence there is
all-false; the reference detection sequence [T, T, F, T, T] arises at the
hours [0, 4, 8, 9, 13] that the repository test actually uses. -/
theorem fixture_hours_amended :
    compute_streaks_of_detection "detection" specHoursFixture =
      some [(0, 1), (1, 1), (2, 2), (3, 3), (4, 3)] ∧
    (is_streak_longer_than_duration specHoursFixture 2).map Prod.snd =
      [false, false, false, false, false] ∧
    (is_streak_longer_than_duration testHoursFixture 2).map Prod.snd =
      [true, true, false, true, true] := by
  with_unfolding_all decide

/-! Embedding of the rule evaluators of src/src/diagnostics.py. -/

/-- Observation row of the samples table consumed by the diagnostics:
patient id (NOPHO_NR), timestamp (REALSAMPLECOLLECTIONTIME, in hours),
channel code (OL_INVER_IUPAC_CDE) and numeric value (INTERNAL_REPLY_NUM). -/
structure Obs where
  pid : Nat
  time : ℚ
  code : String
  value : ℚ
deriving DecidableEq, Repr

/-- Diagnostic frame: the self.data of a rule evaluator — its observation
rows together with the computed detection column, present (aligned with the
rows) only once run_detection has succeeded. -/
structure Frame where
  rows : List Obs
  det : Option (List Bool)
deriving DecidableEq, Repr

/-- Distinct (patient, timestamp) index keys of
pivot_table(index=[PATIENT_ID, SAMPLE_TIME], columns=P_CODE, values=VALUE). -/
def pivotKeys (data : List Obs) : List (Nat × ℚ) :=
  (data.map fun o => (o.pid, o.time)).dedup

/-- Channel codes that occur in the data: exactly the columns the pivoted
frame owns; reading any other column raises a pandas KeyError. -/
def pivotCodes (data : List Obs) : List String :=
  (data.map fun o => o.code).dedup

/-- Cell of the pivoted frame: the mean (the default pivot_table aggfunc) of
the values observed for that (patient, timestamp) and channel, or a NaN
(none) when the cell has no observation. -/
def pivotCell (data : List Obs) (k : Nat × ℚ) (c : String) : Option ℚ :=
  match (data.filter fun o => decide ((o.pid, o.time) = k ∧ o.code = c)).map
      (fun o => o.value) with
  | [] => none
  | v :: vs => some ((v :: vs).sum / ((v :: vs).length : ℚ))

/-- Comparison column > threshold on a possibly-NaN cell: a NaN compares
false. -/
def optGt (v : Option ℚ) (t : ℚ) : Bool :=
  match v with
  | some x => decide (t < x)
  | none => false

/-- Comparison column < threshold on a possibly-NaN cell: a NaN compares
false. -/
def optLt (v : Option ℚ) (t : ℚ) : Bool :=
  match v with
  | some x => decide (x < t)
  | none => false

/-- Pandas outer merge of two keyed boolean sub-detections on
(patient, timestamp) (diagnostics.py lines 237-239): every left row is paired
with each matching right row, or with a null when unmatched; right rows with
no left match are kept with a null left side.  (Pandas additionally sorts the
union of keys; key order is irrelevant downstream, where rows are looked up
by key.) -/
def outerPairs (d1 d2 : List ((Nat × ℚ) × Bool)) :
    List ((Nat × ℚ) × Option Bool × Option Bool) :=
  (d1.flatMap fun a =>
    match d2.filter fun b => decide (b.1 = a.1) with
    | [] => [(a.1, some a.2, none)]
    | m :: ms => (m :: ms).map fun b => (a.1, some a.2, some b.2))
  ++ ((d2.filter fun b => d1.all fun a => !decide (a.1 = b.1)).map
      fun b => (b.1, none, some b.2))

/-- The pandas object-dtype & of detection_x and detection_y
(diagnostics.py line 240): an operand that is NaN (a missing side of the
outer join) makes the conjunction false, never an error and never true. -/
def andNull (x y : Option Bool) : Bool :=
  match x, y with
  | some a, some b => a && b
  | _, _ => false

/-- Combined detection of Diagnose4 (diagnostics.py lines 236-241): outer
join of the two sub-detections on (patient, timestamp), then the
null-coalescing conjunction per row. -/
def d4combine (d1 d2 : List ((Nat × ℚ) × Bool)) : List ((Nat × ℚ) × Bool) :=
  (outerPairs d1 d2).map fun e => (e.1, andNull e.2.1 e.2.2)

/-- Left merge of the computed detection back onto self.data on
(patient, timestamp) followed by astype(bool) (diagnostics.py lines 244-245
and 388-389): an unmatched left row receives NaN, and bool(NaN) is True —
unreachable for frames built by the constructors below, whose rows all carry
one of the pivoted channels. -/
def mergeBack (rows : List Obs) (det : List ((Nat × ℚ) × Bool)) : List (Obs × Bool) :=
  rows.flatMap fun o =>
    match det.filter fun e => decide (e.1 = (o.pid, o.time)) with
    | [] => [(o, true)]
    | m :: ms => (m :: ms).map fun e => (o, e.2)

namespace Diagnose4

/-- Channels required by Diagnose4 (diagnostics.py line 178). -/
def codes : List String := ["NPU19651", "NPU01684", "NPU01370"]

/-- Embedding of Diagnose4.__init__ (diagnostics.py lines 175-180): keep only
the rows of the three liver channels; no detection column yet. -/
def init (df : List Obs) : Frame :=
  ⟨df.filter fun o => decide (o.code ∈ codes), none⟩

/-- Embedding of Diagnose4.run_detection (diagnostics.py lines 214-245).
detection1 flags NPU19651 values above the liver threshold; detection2 pivots
NPU01684/NPU01370 per (patient, timestamp) — reading a pivot column that does
not exist (its channel is absent from the data) raises a KeyError, NPU01684
being read first — and flags koagulation below or bilirubin above threshold;
the two are combined by d4combine and merged back onto self.data.  Reading
the detection column of the merged frame raises a KeyError whenever self.data
already had a detection column, because the merge renames the colliding
columns to detection_x and detection_y. -/
def run_detection (pLiver pKoag pBili : ℚ) (s : Frame) : Except String Frame :=
  let det1 : List ((Nat × ℚ) × Bool) :=
    (s.rows.filter fun o => decide (o.code = "NPU19651")).map fun o =>
      ((o.pid, o.time), decide (pLiver < o.value))
  let sub2 := s.rows.filter fun o => decide (o.code = "NPU01684" ∨ o.code = "NPU01370")
  if "NPU01684" ∈ pivotCodes sub2 then
    if "NPU01370" ∈ pivotCodes sub2 then
      let det2 : List ((Nat × ℚ) × Bool) := (pivotKeys sub2).map fun k =>
        (k, optLt (pivotCell sub2 k "NPU01684") pKoag ||
          optGt (pivotCell sub2 k "NPU01370") pBili)
      let det := d4combine det1 det2
      let merged := mergeBack s.rows det
      if s.det.isSome then Except.error "KeyError: detection"
      else Except.ok ⟨merged.map Prod.fst, some (merged.map Prod.snd)⟩
    else Except.error "KeyError: NPU01370"
  else Except.error "KeyError: NPU01684"

end Diagnose4

namespace Diagnose9

/-- Channels required by Diagnose9 (diagnostics.py line 351). -/
def codes : List String := ["NPU19652", "NPU19653", "DNK05451", "NPU19748"]

/-- Embedding of Diagnose9.__init__ (diagnostics.py lines 348-353): keep only
the rows of the four pancreatitis channels (the source also drops rows whose
value is missing; values are total in this model). -/
def init (df : List Obs) : Frame :=
  ⟨df.filter fun o => decide (o.code ∈ codes), none⟩

/-- Embedding of Diagnose9.run_detection (diagnostics.py lines 369-389):
pivot the four channels per (patient, timestamp) — reading an absent pivot
column raises a KeyError, in the evaluation order NPU19652, NPU19653,
DNK05451, NPU19748 — then flag rows where any of the first three channels
exceeds its normal limit times the slider factor AND NPU19748 exceeds 100;
merge back onto self.data as for Diagnose4, with the same KeyError on a
pre-existing detection column. -/
def run_detection (times : ℚ) (s : Frame) : Except String Frame :=
  if "NPU19652" ∈ pivotCodes s.rows then
    if "NPU19653" ∈ pivotCodes s.rows then
      if "DNK05451" ∈ pivotCodes s.rows then
        if "NPU19748" ∈ pivotCodes s.rows then
          let det : List ((Nat × ℚ) × Bool) := (pivotKeys s.rows).map fun k =>
            (k, (optGt (pivotCell s.rows k "NPU19652") (120 * times) ||
              optGt (pivotCell s.rows k "NPU19653") (36 * times) ||
              optGt (pivotCell s.rows k "DNK05451") (190 * times)) &&
              optGt (pivotCell s.rows k "NPU19748") 100)
          let merged := mergeBack s.rows det
          if s.det.isSome then Except.error "KeyError: detection"
          else Except.ok ⟨merged.map Prod.fst, some (merged.map Prod.snd)⟩
        else Except.error "KeyError: NPU19748"
      else Except.error "KeyError: DNK05451"
    else Except.error "KeyError: NPU19653"
  else Except.error "KeyError: NPU19652"

end Diagnose9

/-- The per-patient OR reduction of
self.data.groupby(PATIENT_ID)[DETECTION].max() followed by the == 1 filter
(diagnostics.py lines 50-53), over (patient id, detection) pairs: pandas
sorts the group keys ascending, reduces the detections of each patient by max
(logical OR on booleans) and keeps the ids whose reduced value is 1. -/
def detectedIds (l : List (Nat × Bool)) : List Nat :=
  (List.insertionSort (· ≤ ·) (l.map Prod.fst).dedup).filter fun p =>
    (l.filter fun e => decide (e.1 = p)).any fun e => e.2

/-- Embedding of AbstractDiagnose.get_detected_ids (diagnostics.py lines
40-53): when the detection column is absent a streamlit warning is shown and
the empty list is returned; otherwise the patients with at least one positive
detection. -/
def get_detected_ids (f : Frame) : List Nat :=
  match f.det with
  | none => []
  | some ds => detectedIds ((f.rows.map fun o => o.pid).zip ds)

/-- Any-reduction of a list of booleans is invariant under permutation. -/
theorem perm_any {α : Type} {l l2 : List α} (h : l.Perm l2) (f : α → Bool) :
    l.any f = l2.any f := by
  apply Bool.coe_iff_coe.mp
  rw [List.any_eq_true, List.any_eq_true]
  constructor
  · rintro ⟨e, he, hf⟩
    exact ⟨e, h.mem_iff.mp he, hf⟩
  · rintro ⟨e, he, hf⟩
    exact ⟨e, h.mem_iff.mpr he, hf⟩

/-- C5.  When every channel Diagnose9 requires is absent from the input
observation table, run_detection does not yield an empty detection set: its
first pivot-column read raises KeyError("NPU19652") — the frame filtered at
construction time is empty, so the pivoted frame owns none of the four
required columns. -/
theorem run_detection9_missing_channel_raises (df : List Obs) (times : ℚ)
    (h : ∀ o ∈ df, o.code ∉ Diagnose9.codes) :
    Diagnose9.run_detection times (Diagnose9.init df) =
      Except.error "KeyError: NPU19652" := by
  have hempty : Diagnose9.init df = ⟨[], none⟩ := by
    rw [Diagnose9.init]
    have : (df.filter fun o => decide (o.code ∈ Diagnose9.codes)) = [] := by
      rw [List.filter_eq_nil_iff]
      intro o ho
      simp only [decide_eq_true_eq]
      exact h o ho
    rw [this]
  rw [hempty]
  rfl

/-- Witness for C5: an observation table holding only a neutrophil channel
row leaves Diagnose9 with no required channel, and run_detection raises. -/
theorem run_detection9_missing_channel_raises_witness :
    Diagnose9.run_detection 3 (Diagnose9.init [⟨0, 0, "NPU02902", 1⟩]) =
      Except.error "KeyError: NPU19652" :=
  run_detection9_missing_channel_raises [⟨0, 0, "NPU02902", 1⟩] 3 (by decide)

/-- C6.  The sub-detections of Diagnose4 are combined by an outer join on
(patient, timestamp): every key of either sub-detection appears in the joined
rows, and any joined row one of whose sides is missing (a null channel
reading at that timestamp) gets detection false — null is coalesced to
false, never an error and never true; d4combine, used by
Diagnose4.run_detection, is exactly this join followed by the
null-coalescing conjunction. -/
theorem d4_outer_join_null_false (d1 d2 : List ((Nat × ℚ) × Bool)) :
    (∀ a ∈ d1, ∃ e ∈ outerPairs d1 d2, e.1 = a.1) ∧
    (∀ b ∈ d2, ∃ e ∈ outerPairs d1 d2, e.1 = b.1) ∧
    (∀ e ∈ outerPairs d1 d2, (e.2.1 = none ∨ e.2.2 = none) →
      andNull e.2.1 e.2.2 = false) ∧
    d4combine d1 d2 = ((outerPairs d1 d2).map fun e => (e.1, andNull e.2.1 e.2.2)) := by
  refine ⟨?_, ?_, ?_, rfl⟩
  · intro a ha
    rcases hfil : d2.filter (fun b => decide (b.1 = a.1)) with _ | ⟨m, ms⟩
    · refine ⟨(a.1, some a.2, none), ?_, rfl⟩
      apply List.mem_append_left
      apply List.mem_flatMap.mpr
      exact ⟨a, ha, by rw [hfil]; exact List.mem_singleton.mpr rfl⟩
    · refine ⟨(a.1, some a.2, some m.2), ?_, rfl⟩
      apply List.mem_append_left
      apply List.mem_flatMap.mpr
      refine ⟨a, ha, ?_⟩
      rw [hfil]
      exact List.mem_map_of_mem _ (List.mem_cons_self _ _)
  · intro b hb
    by_cases hmatch : ∃ a ∈ d1, a.1 = b.1
    · obtain ⟨a, ha, hab⟩ := hmatch
      rcases hfil : d2.filter (fun c => decide (c.1 = a.1)) with _ | ⟨m, ms⟩
      · exfalso
        have : b ∈ d2.filter fun c => decide (c.1 = a.1) :=
          List.mem_filter.mpr ⟨hb, by simp [hab]⟩
        rw [hfil] at this
        cases this
      · refine ⟨(a.1, some a.2, some m.2), ?_, hab⟩
        apply List.mem_append_left
        apply List.mem_flatMap.mpr
        refine ⟨a, ha, ?_⟩
        rw [hfil]
        exact List.mem_map_of_mem _ (List.mem_cons_self _ _)
    · refine ⟨(b.1, none, some b.2), ?_, rfl⟩
      apply List.mem_append_right
      apply List.mem_map_of_mem
      apply List.mem_filter.mpr
      refine ⟨hb, ?_⟩
      rw [List.all_eq_true]
      intro a ha
      simp only [Bool.not_eq_true', decide_eq_false_iff_not]
      exact fun hab => hmatch ⟨a, ha, hab⟩
  · intro e _ hor
    obtain ⟨k, xy⟩ := e
    obtain ⟨x, y⟩ := xy
    rcases hor with h1 | h2
    · cases x with
      | none => cases y <;> rfl
      | some a => simp at h1
    · cases y with
      | none => cases x <;> rfl
      | some b => simp at h2

/-- Witness for C6: with a left-only key (0, 0) and a right-only key (1, 0),
the outer join keeps the right-only key among its rows. -/
theorem d4_outer_join_null_false_witness :
    ∃ e ∈ outerPairs [((0, 0), true)] [((1, 0), true)], e.1 = (1, 0) :=
  (d4_outer_join_null_false [((0, 0), true)] [((1, 0), true)]).2.1 ((1, 0), true)
    (by decide)

/-- Observation table for the idempotence check of Diagnose4: one timestamp
with all three required channels present and all detections positive. -/
def rerunFixture : List Obs :=
  [⟨0, 0, "NPU19651", 50⟩, ⟨0, 0, "NPU01684", 1⟩, ⟨0, 0, "NPU01370", 50⟩]

/-- C7.  Re-running Diagnose4.run_detection on unchanged input and unchanged
parameters is not idempotent: the first run succeeds and attaches the
detection column to self.data, and the merge of the second run then collides with
that column, renaming it to detection_x/detection_y, so reading
self.data["detection"] raises a KeyError instead of reproducing the
first-run output. -/
theorem run_detection4_rerun_raises :
    Diagnose4.run_detection 45 2 40 (Diagnose4.init rerunFixture) =
      Except.ok ⟨rerunFixture, some [true, true, true]⟩ ∧
    Diagnose4.run_detection 45 2 40 ⟨rerunFixture, some [true, true, true]⟩ =
      Except.error "KeyError: detection" := by
  constructor
  · with_unfolding_all rfl
  · with_unfolding_all rfl

/-- C8.  For every detection row set (as (patient id, detection) pairs),
detectedIds — the reduction used by get_detected_ids — returns exactly the
patient ids whose per-patient OR of the detection column is true, and its
output is unchanged under any permutation of the input rows. -/
theorem get_detected_ids_or_perm (l l2 : List (Nat × Bool)) (h : l.Perm l2) :
    (∀ ds : List Bool, get_detected_ids ⟨[], some ds⟩ = detectedIds [] ) ∧
    (∀ p : Nat, p ∈ detectedIds l ↔ (p, true) ∈ l) ∧
    detectedIds l = detectedIds l2 := by
  refine ⟨fun ds => rfl, ?_, ?_⟩
  · intro p
    rw [detectedIds]
    constructor
    · intro hp
      obtain ⟨_, hany⟩ := List.mem_filter.mp hp
      obtain ⟨e, hel, he2⟩ := List.any_eq_true.mp hany
      obtain ⟨hel2, hkey⟩ := List.mem_filter.mp hel
      have h1 : e.1 = p := of_decide_eq_true hkey
      obtain ⟨a, b⟩ := e
      simp only at h1 he2
      rw [← h1, ← he2]
      exact hel2
    · intro hp
      apply List.mem_filter.mpr
      constructor
      · rw [List.mem_insertionSort, List.mem_dedup]
        exact List.mem_map.mpr ⟨(p, true), hp, rfl⟩
      · exact List.any_eq_true.mpr ⟨(p, true),
          List.mem_filter.mpr ⟨hp, by simp⟩, rfl⟩
  · have hperm : (l.map Prod.fst).dedup.Perm (l2.map Prod.fst).dedup :=
      (h.map Prod.fst).dedup
    have heq : List.insertionSort (· ≤ ·) (l.map Prod.fst).dedup =
        List.insertionSort (· ≤ ·) (l2.map Prod.fst).dedup := by
      haveI : IsAntisymm ℕ (fun x1 x2 : ℕ => x1 ≤ x2) := ⟨fun a b h1 h2 => le_antisymm h1 h2⟩
      exact List.eq_of_perm_of_sorted
        ((List.perm_insertionSort _ _).trans
          (hperm.trans (List.perm_insertionSort _ _).symm))
        (List.sorted_insertionSort _ _) (List.sorted_insertionSort _ _)
    rw [detectedIds, detectedIds, heq]
    apply List.filter_congr
    intro p _
    exact perm_any (h.filter fun e => decide (e.1 = p)) fun e => e.2

/-- Witness for C8 on a two-row detection set and its swap. -/
theorem get_detected_ids_or_perm_witness :
    (∀ ds : List Bool, get_detected_ids ⟨[], some ds⟩ = detectedIds []) ∧
    (∀ p : Nat, p ∈ detectedIds [(7, true), (3, false)] ↔
      (p, true) ∈ [(7, true), (3, false)]) ∧
    detectedIds [(7, true), (3, false)] = detectedIds [(3, false), (7, true)] :=
  get_detected_ids_or_perm [(7, true), (3, false)] [(3, false), (7, true)] (by decide)

/-- C10.  For every evaluator frame whose detection column has not been
computed, get_detected_ids returns the empty list (after the streamlit
warning) instead of raising, so calling it before run_detection never
aborts. -/
theorem get_detected_ids_no_detection_empty (f : Frame) (h : f.det = none) :
    get_detected_ids f = [] := by
  rw [get_detected_ids, h]

/-- Witness for C10: a frame with observation rows but no computed detection
column yields the empty id list. -/
theorem get_detected_ids_no_detection_empty_witness :
    get_detected_ids ⟨[⟨0, 0, "NPU02902", 1⟩], none⟩ = [] :=
  get_detected_ids_no_detection_empty ⟨[⟨0, 0, "NPU02902", 1⟩], none⟩ rfl

end MTXPhenotype
